import Mathlib

set_option maxRecDepth 40000

/-!
Verification development for the response-resolution pipeline of the
Quantum Gateway chatbot service (src/chatbot.py).

Texts are modelled as `List Char`.  Each definition below is a direct
translation of the corresponding Python function; functions whose Python
recursion pattern is not structural are written with an explicit fuel
argument equal to the input length, which never runs out on the lengths
actually supplied.
-/

/-! ### Text Sanitizer: `ANSI_ESCAPE` and `remove_ansi` (chatbot.py lines 80, 139-141)

The compiled pattern is ESC followed by either one character of the
class `@-Z\-_` or by `[`, then zero or more parameter bytes, zero or
more intermediate bytes and one final byte, and
`remove_ansi` performs `ANSI_ESCAPE.sub('', text)`: a single left-to-right
scan that deletes every non-overlapping leftmost match.  The character
classes of the pattern are pairwise disjoint where alternatives or
repetition boundaries meet, so Python's backtracking regex engine behaves
exactly like the greedy deterministic matcher below. -/

def escChar : Char := '\x1b'

/-- Second byte of a two-character escape: the class `@-Z\-_`,
i.e. U+0040..U+005A or U+005C..U+005F (note `[` U+005B is excluded). -/
def isAnsiSingleFinal (c : Char) : Bool :=
  (0x40 ≤ c.toNat && c.toNat ≤ 0x5A) || (0x5C ≤ c.toNat && c.toNat ≤ 0x5F)

/-- CSI parameter byte: U+0030..U+003F. -/
def isCsiParam (c : Char) : Bool := 0x30 ≤ c.toNat && c.toNat ≤ 0x3F

/-- CSI intermediate byte: U+0020..U+002F. -/
def isCsiInter (c : Char) : Bool := 0x20 ≤ c.toNat && c.toNat ≤ 0x2F

/-- CSI final byte: U+0040..U+007E. -/
def isCsiFinal (c : Char) : Bool := 0x40 ≤ c.toNat && c.toNat ≤ 0x7E

/-- Given the characters that follow an ESC, return the rest of the input
after a match of the pattern's group, or `none` when the pattern does not
match at this position. -/
def ansiMatch : List Char → Option (List Char)
  | [] => none
  | d :: rest =>
    if isAnsiSingleFinal d then some rest
    else if d = '[' then
      match (rest.dropWhile isCsiParam).dropWhile isCsiInter with
      | [] => none
      | f :: rest2 => if isCsiFinal f then some rest2 else none
    else none

/-- The `re.sub` scan, with fuel.  At each position: if a match starts
here it is deleted and scanning resumes after it, otherwise the character
is kept and scanning moves one position right. -/
def removeAnsiF : Nat → List Char → List Char
  | 0, l => l
  | _ + 1, [] => []
  | fuel + 1, c :: rest =>
    if c = escChar then
      match ansiMatch rest with
      | some r => removeAnsiF fuel r
      | none => c :: removeAnsiF fuel rest
    else c :: removeAnsiF fuel rest

/-- `remove_ansi`: `ANSI_ESCAPE.sub('', text)`.  A fuel of `l.length`
always suffices because every scanning step consumes at least one
character. -/
def remove_ansi (l : List Char) : List Char := removeAnsiF l.length l

/-! ### Python string primitives used by the service -/

/-- Python `str.isspace` (the set of code points stripped by
`str.strip()`): ASCII whitespace U+0009..U+000D and U+0020, the
separator controls U+001C..U+001F, and the Unicode space characters. -/
def pyIsSpace (c : Char) : Bool :=
  (0x09 ≤ c.toNat && c.toNat ≤ 0x0D) || c.toNat = 0x20 ||
  (0x1C ≤ c.toNat && c.toNat ≤ 0x1F) || c.toNat = 0x85 || c.toNat = 0xA0 ||
  c.toNat = 0x1680 || (0x2000 ≤ c.toNat && c.toNat ≤ 0x200A) ||
  c.toNat = 0x2028 || c.toNat = 0x2029 || c.toNat = 0x202F ||
  c.toNat = 0x205F || c.toNat = 0x3000

/-- Python `str.strip()`: remove leading and trailing whitespace. -/
def pyStrip (l : List Char) : List Char :=
  List.rdropWhile pyIsSpace (l.dropWhile pyIsSpace)

/-- Python `str.lower()`, restricted to the alphabet that occurs in the
service's tables and messages: ASCII letters and the Spanish accented
capitals; every other character is left unchanged. -/
def pyLowerChar (c : Char) : Char :=
  if 'A' ≤ c && c ≤ 'Z' then Char.ofNat (c.toNat + 32)
  else if c = 'Á' then 'á'
  else if c = 'É' then 'é'
  else if c = 'Í' then 'í'
  else if c = 'Ó' then 'ó'
  else if c = 'Ú' then 'ú'
  else if c = 'Ñ' then 'ñ'
  else if c = 'Ü' then 'ü'
  else c

/-- Python `str.lower()` on a whole string. -/
def pyLower (l : List Char) : List Char := l.map pyLowerChar

/-- Python substring membership `needle in hay`: some suffix of the
haystack starts with the needle. -/
def subStr (needle : List Char) : List Char → Bool
  | [] => needle.isPrefixOf []
  | c :: rest => needle.isPrefixOf (c :: rest) || subStr needle rest

/-- Python `str.replace(old, new)` (all non-overlapping occurrences,
scanning left to right), with fuel.  The service only calls it with the
non-empty pattern `"Ve a "`; for an empty pattern this model returns the
string unchanged. -/
def pyReplaceF (old new : List Char) : Nat → List Char → List Char
  | 0, s => s
  | _ + 1, [] => []
  | fuel + 1, c :: rest =>
    if !old.isEmpty && old.isPrefixOf (c :: rest) then
      new ++ pyReplaceF old new fuel ((c :: rest).drop old.length)
    else
      c :: pyReplaceF old new fuel rest

/-- Python `str.replace(old, new)`.  A fuel of `s.length` always
suffices because every step consumes at least one character. -/
def pyReplace (old new s : List Char) : List Char := pyReplaceF old new s.length s

/-! ### Cache Store: `ResponseCache` (chatbot.py lines 35-59)

The Python store is a `dict` (insertion-ordered, unique keys) from the
message fingerprint to `{'response': ..., 'timestamp': ...}`.  It is
modelled as an insertion-ordered association list.  Timestamps are
abstract integers supplied to each operation as `now` (the code reads
`datetime.now()`); `ttl` is the configured time-to-live in the same
units. -/

structure CacheEntry where
  response : String
  timestamp : Int
deriving DecidableEq

structure ResponseCache where
  cache : List (String × CacheEntry)
  max_size : Nat
  ttl : Int
deriving DecidableEq

/-- `key in self.cache` / `self.cache[key]`: first (and, for a dict,
only) binding of the key. -/
def lookupKey (l : List (String × CacheEntry)) (k : String) : Option CacheEntry :=
  (l.find? (fun p => p.1 == k)).map Prod.snd

/-- `ResponseCache.get`: returns the stored response when the key is
present and `now - timestamp < ttl`; when present but expired, deletes
the entry and returns `None`; otherwise returns `None`.  The returned
pair is (result, store after the call). -/
def ResponseCache.get (c : ResponseCache) (now : Int) (key : String) :
    Option String × ResponseCache :=
  match lookupKey c.cache key with
  | some entry =>
    if now - entry.timestamp < c.ttl then (some entry.response, c)
    else (none, { c with cache := c.cache.eraseP (fun p => p.1 == key) })
  | none => (none, c)

/-- Python `min(keys, key=lambda k: cache[k]['timestamp'])` over the
dict's iteration (= insertion) order: the first binding with the
strictly smallest timestamp. -/
def pyMinByTimestamp : List (String × CacheEntry) → Option (String × CacheEntry)
  | [] => none
  | p :: rest =>
    some (rest.foldl (fun acc q => if q.2.timestamp < acc.2.timestamp then q else acc) p)

/-- Python `self.cache[key] = value`: overwrite in place when the key is
present (keeping its position), otherwise append at the end. -/
def dictInsert (l : List (String × CacheEntry)) (k : String) (v : CacheEntry) :
    List (String × CacheEntry) :=
  if (l.find? (fun p => p.1 == k)).isSome then
    l.map (fun p => if p.1 == k then (p.1, v) else p)
  else l ++ [(k, v)]

/-- `ResponseCache.set`: when `len(cache) >= max_size` the binding with
the oldest timestamp is deleted first (whether or not `key` itself is
already present), then the key is bound to the new response with
`timestamp = now`.  When `max_size = 0` and the store is empty, Python's
`min` raises ValueError over the empty key view and the store is left
unmodified; the model returns the store unchanged in that case. -/
def ResponseCache.set (c : ResponseCache) (now : Int) (key response : String) :
    ResponseCache :=
  if c.cache.length ≥ c.max_size then
    match pyMinByTimestamp c.cache with
    | some oldest =>
      let evicted := c.cache.eraseP (fun p => p.1 == oldest.1)
      { c with cache := dictInsert evicted key ⟨response, now⟩ }
    | none => c
  else { c with cache := dictInsert c.cache key ⟨response, now⟩ }

/-- One observable operation on the shared store, tagged with the time at
which it runs. -/
inductive CacheOp where
  | getOp (now : Int) (key : String)
  | setOp (now : Int) (key response : String)

/-- The store after one operation. -/
def applyOp (c : ResponseCache) : CacheOp → ResponseCache
  | .getOp now key => (ResponseCache.get c now key).2
  | .setOp now key r => ResponseCache.set c now key r

/-- The store after a sequence of operations. -/
def runOps (c : ResponseCache) (ops : List CacheOp) : ResponseCache :=
  ops.foldl applyOp c

/-- `ResponseCache.__init__`: empty contents with the configured bound
and ttl (defaults: 200 entries, 60 minutes). -/
def ResponseCache.empty (maxSize : Nat) (ttl : Int) : ResponseCache :=
  ⟨[], maxSize, ttl⟩

/-! ### Intent Classifier: `QUESTION_PATTERNS` and `detectar_intencion`
(chatbot.py lines 127-137, 147-154)

Each pattern in the table is an alternation of literal strings, so
`re.search(pattern, message_lower, re.IGNORECASE)` succeeds exactly when
some alternative is a substring of the lower-cased message (the
alternatives are themselves lower-case, making IGNORECASE a no-op). -/

def QUESTION_PATTERNS : List (List (List Char) × String) :=
  [ (["hola".toList, "buenos días".toList, "buenas tardes".toList], "saludo"),
    (["gracias".toList, "thanks".toList], "agradecimiento"),
    (["adios".toList, "chao".toList, "hasta luego".toList], "despedida"),
    (["plan".toList, "suscripción".toList, "precio".toList, "tarifa".toList],
      "planes_generico"),
    (["reservar".toList, "booking".toList, "habitación".toList, "alojamiento".toList],
      "reservas_generico"),
    (["cancelar".toList, "anular".toList], "cancelacion"),
    (["contacto".toList, "soporte".toList, "ayuda".toList, "whatsapp".toList],
      "contacto"),
    (["cuenta".toList, "perfil".toList, "mis datos".toList], "cuenta"),
    (["como funciona".toList, "qué es".toList, "explica".toList],
      "explicacion_general") ]

/-- `re.search` of one table pattern against the lowered message. -/
def entryMatches (e : List (List Char) × String) (lowered : List Char) : Bool :=
  e.1.any (fun alt => subStr alt lowered)

/-- `detectar_intencion`: lower-case the message, walk the table in
declaration order, return the label of the first matching pattern. -/
def detectar_intencion (message : List Char) : Option String :=
  (QUESTION_PATTERNS.find? (fun e => entryMatches e (pyLower message))).map Prod.snd

/-! ### Canned Response Resolver: `INTELLIGENT_RESPONSES` and
`procesar_respuesta_rapida` (chatbot.py lines 108-124, 186-199) -/

def saludoResp : List Char :=
  ("¡Hola! Soy tu asistente de Quantum Gateway. Veo que estás en nuestra plataforma. ¿Necesitas ayuda con reservas, planes hoteleros o guía en alguna sección específica?").toList

def despedidaResp : List Char :=
  ("¡Fue un gusto ayudarte! Recuerda que puedes navegar por el menú superior para acceder a todas las funciones. ¡Hasta pronto!").toList

def agradecimientoResp : List Char :=
  ("¡De nada! Estoy aquí para ayudarte en lo que necesites. Si tienes más preguntas sobre la plataforma, no dudes en consultarme.").toList

def planesResp : List Char :=
  ("Nuestros planes de administración hotelera incluyen gestión de reservas, panel de control, reportes y soporte. Para ver detalles específicos y precios, ve al menú \x27Planes\x27 donde podrás comparar características y suscribirte al que mejor se adapte a tu hotel.").toList

def reservasResp : List Char :=
  ("El sistema de reservas te permite buscar disponibilidad, seleccionar habitaciones y completar tu booking. Desde \x27Reservas\x27 en el menú superior puedes ingresar fechas, ver opciones y confirmar. ¿Te guío paso a paso?").toList

def cancelacionResp : List Char :=
  ("Para cancelaciones, accede a \x27Mi Cuenta\x27 → \x27Mis Reservas\x27, selecciona la reserva y usa la opción \x27Cancelar\x27. Si necesitas ayuda con el proceso, puedo explicarte cada paso en pantalla.").toList

def contactoResp : List Char :=
  ("Para atención personalizada, ve a \x27Soporte\x27 en el menú donde encontrarás nuestro WhatsApp, email y formulario de contacto. Estamos para ayudarte.").toList

def cuentaResp : List Char :=
  ("En \x27Mi Cuenta\x27 gestionas tu perfil, ves historial de reservas, facturas y configuraciones. Es tu centro de control personal.").toList

def INTELLIGENT_RESPONSES : List (String × List Char) :=
  [ ("saludo", saludoResp),
    ("despedida", despedidaResp),
    ("agradecimiento", agradecimientoResp),
    ("planes_generico", planesResp),
    ("reservas_generico", reservasResp),
    ("cancelacion", cancelacionResp),
    ("contacto", contactoResp),
    ("cuenta", cuentaResp) ]

/-- Suffix appended when the original message asks for step-by-step help. -/
def stepSuffix : List Char := (" Sí, te explico cada paso: ").toList

/-- Suffix appended when the original message signals urgency. -/
def urgencySuffix : List Char :=
  (" Para atención inmediata, ve directamente a Soporte → Contacto.").toList

/-- `procesar_respuesta_rapida`: look the intent up in the canned table;
if found, append the step-by-step suffix when the lower-cased original
message contains "paso a paso", else the urgency suffix when it contains
"urgente", else return the base template. -/
def procesar_respuesta_rapida (intencion : String) (mensaje_original : List Char) :
    Option (List Char) :=
  match INTELLIGENT_RESPONSES.find? (fun p => p.1 == intencion) with
  | some p =>
    if subStr ("paso a paso".toList) (pyLower mensaje_original) then
      some (p.2 ++ stepSuffix)
    else if subStr ("urgente".toList) (pyLower mensaje_original) then
      some (p.2 ++ urgencySuffix)
    else some p.2
  | none => none

/-! ### Model Invoker: `run_ollama_optimizado` (chatbot.py lines 201-239)

The subprocess outcome is abstracted as `ProcResult`: the process either
completed with an exit code and captured stdout/stderr, exceeded the
30-second timeout (`subprocess.TimeoutExpired`), or failed to launch.
On completion with exit code 0 the code returns
`remove_ansi(result.stdout.strip())`; a non-zero exit code or a launch
error yields `None`; a timeout yields the static fallback string. -/

inductive ProcResult where
  | completed (returncode : Int) (stdout stderr : List Char)
  | timedOut
  | launchError

/-- The static message returned directly on `subprocess.TimeoutExpired`. -/
def timeoutFallback : List Char :=
  ("Estoy optimizando la respuesta. Por favor, revisa en el menú la sección correspondiente o intenta de nuevo.").toList

/-- `run_ollama_optimizado`, as a function of the subprocess outcome. -/
def run_ollama_optimizado : ProcResult → Option (List Char)
  | .completed rc stdout _ =>
    if rc ≠ 0 then none else some (remove_ansi (pyStrip stdout))
  | .timedOut => some timeoutFallback
  | .launchError => none

/-! ### Response Enhancer: `mejorar_respuesta_contexto`
(chatbot.py lines 241-255) -/

/-- The guidance offer appended when the response mentions neither
"paso a paso" nor "guiar". -/
def guideSuffix : List Char := (" ¿Necesitas que te guíe paso a paso?").toList

/-- `mejorar_respuesta_contexto`: if the lower-cased response contains
"ve a" but not "menú", replace every exact occurrence of "Ve a " with
"Ve al menú "; then, if the (possibly rewritten) response mentions
neither "paso a paso" nor "guiar" in lower case, append the guidance
offer.  The `mensaje_original` parameter is accepted but never read. -/
def mejorar_respuesta_contexto (respuesta mensaje_original : List Char) : List Char :=
  let r1 :=
    if subStr ("ve a".toList) (pyLower respuesta) &&
        !subStr ("menú".toList) (pyLower respuesta) then
      pyReplace ("Ve a ".toList) ("Ve al menú ".toList) respuesta
    else respuesta
  if !subStr ("paso a paso".toList) (pyLower r1) &&
      !subStr ("guiar".toList) (pyLower r1) then
    r1 ++ guideSuffix
  else r1

/-! ### Concrete store fixtures used by counterexamples and witnesses -/

/-- A store at capacity (2 entries, `max_size = 2`), where key "a" holds
the oldest entry. -/
def cacheAtCapacity : ResponseCache :=
  { cache := [("a", ⟨"ra", 0⟩), ("b", ⟨"rb", 1⟩)], max_size := 2, ttl := 60 }

/-- A store far below its default capacity. -/
def smallCache : ResponseCache :=
  { cache := [("a", ⟨"ra", 0⟩), ("b", ⟨"rb", 1⟩)], max_size := 200, ttl := 60 }

/-- A store holding one entry created at time 0, with ttl 60. -/
def oneEntryCache : ResponseCache :=
  { cache := [("k", ⟨"resp", 0⟩)], max_size := 200, ttl := 60 }

/-! ## Helper lemmas -/

/-- A successful pattern match consumes at least one character beyond the
ESC. -/
lemma ansiMatch_length {l r : List Char} (h : ansiMatch l = some r) :
    r.length < l.length := by
  match l with
  | [] => simp [ansiMatch] at h
  | d :: rest =>
    have hdw : ((rest.dropWhile isCsiParam).dropWhile isCsiInter).length ≤ rest.length :=
      le_trans (List.dropWhile_suffix _).sublist.length_le
        (List.dropWhile_suffix _).sublist.length_le
    simp only [ansiMatch] at h
    split at h
    · cases h
      simp [Nat.lt_succ_self]
    · split at h
      · split at h
        · cases h
        · rename_i heq
          split at h
          · cases h
            rw [heq] at hdw
            simp only [List.length_cons] at hdw ⊢
            omega
          · cases h
      · cases h

/-- When the input contains no ESC character the scan copies it
verbatim, for any sufficient fuel. -/
lemma removeAnsiF_of_no_esc :
    ∀ (fuel : Nat) (l : List Char), l.length ≤ fuel →
      (∀ c ∈ l, c ≠ escChar) → removeAnsiF fuel l = l := by
  intro fuel
  induction fuel with
  | zero => intro l _ _; rfl
  | succ n ih =>
    intro l hlen hesc
    match l with
    | [] => rfl
    | c :: rest =>
      have hc : c ≠ escChar := hesc c (List.mem_cons_self c rest)
      have hrest : rest.length ≤ n := by
        simp only [List.length_cons] at hlen; omega
      simp only [removeAnsiF, if_neg hc]
      rw [ih rest hrest (fun x hx => hesc x (List.mem_cons_of_mem c hx))]

/-- `remove_ansi` is the identity on strings without the ESC character. -/
lemma remove_ansi_of_no_esc (l : List Char) (h : ∀ c ∈ l, c ≠ escChar) :
    remove_ansi l = l :=
  removeAnsiF_of_no_esc l.length l le_rfl h

/-- Every character of `pyStrip l` is a character of `l`. -/
lemma mem_of_mem_pyStrip {c : Char} {l : List Char} (h : c ∈ pyStrip l) : c ∈ l := by
  have h1 : c ∈ l.dropWhile pyIsSpace :=
    (List.rdropWhile_prefix pyIsSpace _).sublist.subset h
  exact (List.dropWhile_suffix pyIsSpace).sublist.subset h1

/-- A nonempty prefix starts with the same character. -/
lemma IsPrefix_head? {α : Type} {x y : List α} (h : x <+: y) {c : α}
    (hx : x.head? = some c) : y.head? = some c := by
  obtain ⟨t, rfl⟩ := h
  match x, hx with
  | a :: s, hx => simpa using hx

/-- The first character surviving `str.strip()` is not whitespace. -/
lemma pyStrip_head_not_space {l : List Char} {c : Char}
    (h : (pyStrip l).head? = some c) : pyIsSpace c = false := by
  have h1 : (l.dropWhile pyIsSpace).head? = some c :=
    IsPrefix_head? (List.rdropWhile_prefix pyIsSpace _) h
  have h2 := List.head?_dropWhile_not pyIsSpace l
  rw [h1] at h2
  exact h2

/-- The last character surviving `str.strip()` is not whitespace. -/
lemma pyStrip_getLast_not_space {l : List Char} {c : Char}
    (h : (pyStrip l).getLast? = some c) : pyIsSpace c = false := by
  unfold pyStrip List.rdropWhile at h
  rw [List.getLast?_reverse] at h
  have h2 := List.head?_dropWhile_not pyIsSpace (l.dropWhile pyIsSpace).reverse
  rw [h] at h2
  exact h2

/-! ## Claim C2 — idempotence of the text sanitizer -/

/-- Claim C2 counterexample: the single-pass regex removal is not
idempotent.  In `"\x1b\x1b[0mA"` the first pass removes only the CSI
sequence `"\x1b[0m"`, leaving `"\x1bA"`, which itself is an ANSI escape
that a second pass removes. -/
theorem remove_ansi_not_idempotent :
    remove_ansi (remove_ansi ("\x1b\x1b[0mA".toList)) ≠
      remove_ansi ("\x1b\x1b[0mA".toList) := by
  decide

/-- Claim C2 (amended): `remove_ansi` is idempotent on every input whose
one-pass output no longer contains the ESC character; in general a
single pass may splice a stray ESC together with following text into a
new escape sequence, which a second pass removes. -/
theorem remove_ansi_idempotent_of_no_esc (x : List Char)
    (h : escChar ∉ remove_ansi x) :
    remove_ansi (remove_ansi x) = remove_ansi x :=
  remove_ansi_of_no_esc _ (fun c hc hce => h (hce ▸ hc))

/-- Claim C2 witness: idempotence at the concrete input `"hola\x1b[0m"`. -/
theorem remove_ansi_idempotent_of_no_esc_witness :
    remove_ansi (remove_ansi ("hola\x1b[0m".toList)) =
      remove_ansi ("hola\x1b[0m".toList) :=
  remove_ansi_idempotent_of_no_esc ("hola\x1b[0m".toList) (by decide)

/-! ## Claim C5 — behaviour of the Model Invoker on timeout -/

/-- Claim C5 counterexample: on timeout `run_ollama_optimizado` returns
the static fallback message as an ordinary string result, identical to
what a successful run whose stdout is that very message would return —
there is no failure value distinguishable from success. -/
theorem timeout_masked_as_success :
    run_ollama_optimizado ProcResult.timedOut = some timeoutFallback ∧
    run_ollama_optimizado (ProcResult.completed 0 timeoutFallback []) =
      run_ollama_optimizado ProcResult.timedOut := by
  decide

/-- Claim C5 (amended): when the model process exceeds the timeout the
invoker returns the static fallback message as an ordinary success
result (a non-`None` string); the distinguishable failure value `None`
arises only from a non-zero exit status or a launch error. -/
theorem run_ollama_timeout_returns_fallback :
    run_ollama_optimizado ProcResult.timedOut = some timeoutFallback ∧
    run_ollama_optimizado ProcResult.launchError = none ∧
    ∀ (rc : Int) (stdout stderr : List Char), rc ≠ 0 →
      run_ollama_optimizado (ProcResult.completed rc stdout stderr) = none := by
  refine ⟨rfl, rfl, ?_⟩
  intro rc stdout stderr h
  simp [run_ollama_optimizado, h]

/-- Claim C5 witness: a non-zero exit status yields the failure value. -/
theorem run_ollama_timeout_returns_fallback_witness :
    run_ollama_optimizado (ProcResult.completed 1 [] []) = none :=
  run_ollama_timeout_returns_fallback.2.2 1 [] [] (by decide)

/-! ## Claim C6 — whitespace of the Model Invoker's success output -/

/-- Claim C6 counterexample: the code trims stdout before removing ANSI
sequences, so removal can expose trailing whitespace.  For stdout
`"abc \x1b[0m"` the returned string is `"abc "`, which ends in a space. -/
theorem run_ollama_success_trailing_space :
    run_ollama_optimizado (ProcResult.completed 0 ("abc \x1b[0m".toList) []) =
      some ("abc ".toList) ∧
    ("abc ".toList).getLast? = some ' ' ∧ pyIsSpace ' ' = true := by
  decide

/-- Claim C6 (amended): on a successful invocation (exit status zero, no
timeout) whose stdout contains no ESC character, the invoker returns the
stdout trimmed of leading and trailing whitespace, and the returned
string has no leading or trailing whitespace character; when stdout
contains ANSI escapes their removal happens after trimming and may
expose whitespace at the ends. -/
theorem run_ollama_success_trimmed (stdout stderr : List Char)
    (h : ∀ c ∈ stdout, c ≠ escChar) :
    run_ollama_optimizado (ProcResult.completed 0 stdout stderr) =
      some (pyStrip stdout) ∧
    (∀ c, (pyStrip stdout).head? = some c → pyIsSpace c = false) ∧
    (∀ c, (pyStrip stdout).getLast? = some c → pyIsSpace c = false) := by
  refine ⟨?_, fun c hc => pyStrip_head_not_space hc,
    fun c hc => pyStrip_getLast_not_space hc⟩
  have hne : ¬((0 : Int) ≠ 0) := by omega
  simp only [run_ollama_optimizado, if_neg hne]
  rw [remove_ansi_of_no_esc _ (fun c hc => h c (mem_of_mem_pyStrip hc))]

/-- Claim C6 witness: trimming at the concrete stdout `" hola "`. -/
theorem run_ollama_success_trimmed_witness :
    run_ollama_optimizado (ProcResult.completed 0 (" hola ".toList) []) =
      some ("hola".toList) :=
  ((run_ollama_success_trimmed (" hola ".toList) [] (by decide)).1).trans (by decide)

/-! ## Cache Store lemmas -/

/-- The fold inside `pyMinByTimestamp` returns the accumulator or a list
element. -/
lemma foldl_min_mem (l : List (String × CacheEntry)) :
    ∀ acc : String × CacheEntry,
      l.foldl (fun acc q => if q.2.timestamp < acc.2.timestamp then q else acc) acc ∈
        acc :: l := by
  induction l with
  | nil => intro acc; simp
  | cons q t ih =>
    intro acc
    simp only [List.foldl_cons]
    by_cases hq : q.2.timestamp < acc.2.timestamp
    · rw [if_pos hq]
      exact List.mem_cons_of_mem acc (ih q)
    · rw [if_neg hq]
      rcases List.mem_cons.mp (ih acc) with h | h
      · rw [h]; exact List.mem_cons_self acc _
      · exact List.mem_cons_of_mem acc (List.mem_cons_of_mem q h)

/-- The binding picked for eviction is a binding of the store. -/
lemma pyMinByTimestamp_mem {l : List (String × CacheEntry)}
    {p : String × CacheEntry} (h : pyMinByTimestamp l = some p) : p ∈ l := by
  match l with
  | [] => simp [pyMinByTimestamp] at h
  | q :: t =>
    simp only [pyMinByTimestamp, Option.some.injEq] at h
    have := foldl_min_mem t q
    rw [h] at this
    exact this

/-- `dictInsert` grows the store by at most one binding. -/
lemma dictInsert_length_le (l : List (String × CacheEntry)) (k : String)
    (v : CacheEntry) : (dictInsert l k v).length ≤ l.length + 1 := by
  unfold dictInsert
  split
  · simp
  · simp

/-- `get` never grows the store. -/
lemma get_snd_length_le (c : ResponseCache) (now : Int) (key : String) :
    (ResponseCache.get c now key).2.cache.length ≤ c.cache.length := by
  unfold ResponseCache.get
  split
  · split
    · simp
    · exact (List.eraseP_sublist c.cache).length_le
  · simp

/-- `set` keeps the store within its configured bound. -/
lemma set_length_le (c : ResponseCache) (now : Int) (key r : String)
    (h : c.cache.length ≤ c.max_size) :
    (ResponseCache.set c now key r).cache.length ≤ c.max_size := by
  unfold ResponseCache.set
  split
  · rename_i hge
    rcases hmin : pyMinByTimestamp c.cache with _ | oldest
    · simpa [hmin] using h
    · simp only [hmin]
      have hmem : oldest ∈ c.cache := pyMinByTimestamp_mem hmin
      have hpos : 1 ≤ c.cache.length := List.length_pos.mpr (List.ne_nil_of_mem hmem)
      have herase : (c.cache.eraseP (fun p => p.1 == oldest.1)).length =
          c.cache.length - 1 :=
        List.length_eraseP_of_mem hmem (by simp)
      calc (dictInsert (c.cache.eraseP (fun p => p.1 == oldest.1)) key
              ⟨r, now⟩).length
          ≤ (c.cache.eraseP (fun p => p.1 == oldest.1)).length + 1 :=
            dictInsert_length_le _ _ _
        _ = c.cache.length - 1 + 1 := by rw [herase]
        _ = c.cache.length := by omega
        _ ≤ c.max_size := h
  · rename_i hlt
    have : c.cache.length + 1 ≤ c.max_size := by omega
    exact le_trans (dictInsert_length_le _ _ _) this

/-- Every operation leaves the configured bound unchanged. -/
lemma applyOp_max_size (c : ResponseCache) (op : CacheOp) :
    (applyOp c op).max_size = c.max_size := by
  rcases op with ⟨now, key⟩ | ⟨now, key, r⟩
  · simp only [applyOp]
    unfold ResponseCache.get
    split
    · split <;> rfl
    · rfl
  · simp only [applyOp]
    unfold ResponseCache.set
    split
    · rcases pyMinByTimestamp c.cache with _ | oldest <;> rfl
    · rfl

/-- Every operation preserves the size bound. -/
lemma applyOp_length_le (c : ResponseCache) (op : CacheOp)
    (h : c.cache.length ≤ c.max_size) :
    (applyOp c op).cache.length ≤ (applyOp c op).max_size := by
  rw [applyOp_max_size]
  rcases op with ⟨now, key⟩ | ⟨now, key, r⟩
  · exact le_trans (get_snd_length_le c now key) h
  · exact set_length_le c now key r h

/-- The size bound is an invariant of every operation sequence. -/
lemma runOps_length_le (ops : List CacheOp) :
    ∀ c : ResponseCache, c.cache.length ≤ c.max_size →
      (runOps c ops).cache.length ≤ (runOps c ops).max_size := by
  induction ops with
  | nil => intro c h; exact h
  | cons op rest ih =>
    intro c h
    exact ih (applyOp c op) (applyOp_length_le c op h)

/-- The configured bound survives every operation sequence. -/
lemma runOps_max_size (ops : List CacheOp) :
    ∀ c : ResponseCache, (runOps c ops).max_size = c.max_size := by
  induction ops with
  | nil => intro c; rfl
  | cons op rest ih =>
    intro c
    show (runOps (applyOp c op) rest).max_size = c.max_size
    rw [ih (applyOp c op), applyOp_max_size]

/-! ## Claim C1 — the store never exceeds its configured bound -/

/-- Claim C1: starting from the empty store, after any sequence of
get/set operations the number of entries never exceeds the configured
maximum (default 200): set evicts before inserting at capacity, get only
removes entries. -/
theorem cache_size_invariant (maxSize : Nat) (ttl : Int) (ops : List CacheOp) :
    (runOps (ResponseCache.empty maxSize ttl) ops).cache.length ≤ maxSize := by
  have h := runOps_length_le ops (ResponseCache.empty maxSize ttl)
    (by simp [ResponseCache.empty])
  rwa [runOps_max_size ops (ResponseCache.empty maxSize ttl)] at h

/-- `List.find?` on a cons whose head satisfies the predicate, stated
with the predicate explicit. -/
lemma find?_cons_pos' {α : Type} (p : α → Bool) (a : α) (l : List α)
    (h : p a = true) : List.find? p (a :: l) = some a := by
  rw [List.find?_cons, h]

/-- `List.find?` on a cons whose head fails the predicate, stated with
the predicate explicit. -/
lemma find?_cons_neg' {α : Type} (p : α → Bool) (a : α) (l : List α)
    (h : p a = false) : List.find? p (a :: l) = List.find? p l := by
  rw [List.find?_cons, h]

/-- `List.eraseP` on a cons whose head satisfies the predicate, stated
with the predicate explicit. -/
lemma eraseP_cons_pos' {α : Type} (p : α → Bool) (a : α) (l : List α)
    (h : p a = true) : (a :: l).eraseP p = l := by
  rw [List.eraseP_cons, h]
  rfl

/-- `List.eraseP` on a cons whose head fails the predicate, stated with
the predicate explicit. -/
lemma eraseP_cons_neg' {α : Type} (p : α → Bool) (a : α) (l : List α)
    (h : p a = false) : (a :: l).eraseP p = a :: l.eraseP p := by
  rw [List.eraseP_cons, h]
  rfl

/-- Deleting the binding of one key does not affect lookups of other
keys. -/
lemma lookupKey_eraseP_ne (l : List (String × CacheEntry)) (key k : String)
    (hk : k ≠ key) :
    lookupKey (l.eraseP (fun p => p.1 == key)) k = lookupKey l k := by
  induction l with
  | nil => rfl
  | cons p t ih =>
    by_cases hp : p.1 = key
    · rw [eraseP_cons_pos' _ p t (by simp [hp])]
      unfold lookupKey
      rw [find?_cons_neg' _ p t
        (by simp only [beq_eq_false_iff_ne, ne_eq, hp]; exact fun h => hk h.symm)]
    · rw [eraseP_cons_neg' _ p t (by simp [hp])]
      by_cases hpk : p.1 = k
      · unfold lookupKey
        rw [find?_cons_pos' _ p _ (by simp [hpk]),
          find?_cons_pos' _ p t (by simp [hpk])]
      · unfold lookupKey
        rw [find?_cons_neg' _ p _ (by simp [hpk]),
          find?_cons_neg' _ p t (by simp [hpk])]
        exact ih

/-- A key that occurs in no binding looks up to nothing. -/
lemma lookupKey_eq_none_of_not_mem (l : List (String × CacheEntry)) (k : String)
    (h : k ∉ l.map Prod.fst) : lookupKey l k = none := by
  unfold lookupKey
  rw [List.find?_eq_none.mpr]
  · rfl
  · intro p hp hbeq
    exact h (List.mem_map.mpr ⟨p, hp, by simpa using hbeq.symm⟩)

/-- In a store with pairwise-distinct keys, deleting a key's binding
makes that key absent. -/
lemma lookupKey_eraseP_self (l : List (String × CacheEntry)) (key : String)
    (hnd : (l.map Prod.fst).Nodup) :
    lookupKey (l.eraseP (fun p => p.1 == key)) key = none := by
  induction l with
  | nil => rfl
  | cons p t ih =>
    rw [List.map_cons, List.nodup_cons] at hnd
    by_cases hp : p.1 = key
    · rw [eraseP_cons_pos' _ p t (by simp [hp])]
      exact lookupKey_eq_none_of_not_mem t key (hp ▸ hnd.1)
    · rw [eraseP_cons_neg' _ p t (by simp [hp])]
      unfold lookupKey
      rw [find?_cons_neg' _ p _ (by simp [hp])]
      exact ih hnd.2

/-- Deleting the binding found for a key shrinks the store by exactly
one entry. -/
lemma length_eraseP_of_lookup (l : List (String × CacheEntry)) (key : String)
    (e : CacheEntry) (h : lookupKey l key = some e) :
    (l.eraseP (fun p => p.1 == key)).length + 1 = l.length := by
  unfold lookupKey at h
  rcases hf : l.find? (fun p => p.1 == key) with _ | p
  · rw [hf] at h; cases h
  · have hmem := List.mem_of_find?_eq_some hf
    have hp := List.find?_some hf
    have hpos : 1 ≤ l.length := List.length_pos.mpr (List.ne_nil_of_mem hmem)
    rw [List.length_eraseP_of_mem hmem hp]
    omega

/-! ## Claim C3 — semantics of `ResponseCache.get` -/

/-- Claim C3: for every key and time of call, get returns the stored
response iff the key is present and its age `now - timestamp` is
strictly below the ttl; when the key is present but expired, get returns
nothing and removes exactly that entry (the key becomes absent, every
other key's binding is untouched, and the size drops by exactly one). -/
theorem cache_get_spec (c : ResponseCache) (now : Int) (key : String)
    (hnd : (c.cache.map Prod.fst).Nodup) :
    (∀ r, (ResponseCache.get c now key).1 = some r ↔
        ∃ e, lookupKey c.cache key = some e ∧ now - e.timestamp < c.ttl ∧
          r = e.response) ∧
    (∀ e, lookupKey c.cache key = some e → c.ttl ≤ now - e.timestamp →
        (ResponseCache.get c now key).1 = none ∧
        lookupKey (ResponseCache.get c now key).2.cache key = none ∧
        (∀ k, k ≠ key →
          lookupKey (ResponseCache.get c now key).2.cache k = lookupKey c.cache k) ∧
        (ResponseCache.get c now key).2.cache.length + 1 = c.cache.length) := by
  rcases hlk : lookupKey c.cache key with _ | e
  · constructor
    · intro r
      simp [ResponseCache.get, hlk]
    · intro e he
      cases he
  · constructor
    · intro r
      by_cases httl : now - e.timestamp < c.ttl
      · simp only [ResponseCache.get, hlk, if_pos httl]
        constructor
        · intro h
          exact ⟨e, rfl, httl, (Option.some.injEq _ _ ▸ h).symm⟩
        · rintro ⟨e', he', _, hr⟩
          cases he'
          rw [hr]
      · simp only [ResponseCache.get, hlk, if_neg httl]
        constructor
        · intro h
          cases h
        · rintro ⟨e', he', htt, _⟩
          cases he'
          exact absurd htt httl
    · intro e0 he0 httl
      cases he0
      have httl' : ¬(now - e.timestamp < c.ttl) := not_lt.mpr httl
      have hget : ResponseCache.get c now key =
          (none, { c with cache := c.cache.eraseP (fun p => p.1 == key) }) := by
        simp only [ResponseCache.get, hlk, if_neg httl']
      rw [hget]
      exact ⟨rfl, lookupKey_eraseP_self c.cache key hnd,
        fun k hk => lookupKey_eraseP_ne c.cache key k hk,
        length_eraseP_of_lookup c.cache key e hlk⟩

/-- Claim C3 witness: an entry created at time 0 with ttl 60, queried at
time 100, is reported absent and deleted. -/
theorem cache_get_spec_witness :
    (ResponseCache.get oneEntryCache 100 "k").1 = none ∧
    lookupKey (ResponseCache.get oneEntryCache 100 "k").2.cache "k" = none := by
  have h := (cache_get_spec oneEntryCache 100 "k" (by decide)).2 ⟨"resp", 0⟩
    (by decide) (by decide)
  exact ⟨h.1, h.2.1⟩

/-- Overwriting a present key in place makes it look up to the new
value. -/
lemma lookupKey_map_overwrite (l : List (String × CacheEntry)) (k : String)
    (v : CacheEntry) (h : (l.find? (fun p => p.1 == k)).isSome = true) :
    lookupKey (l.map (fun p => if p.1 == k then (p.1, v) else p)) k = some v := by
  induction l with
  | nil => simp at h
  | cons p t ih =>
    by_cases hp : p.1 = k
    · simp only [List.map_cons]
      rw [show (if p.1 == k then (p.1, v) else p) = (p.1, v) from by simp [hp]]
      unfold lookupKey
      rw [find?_cons_pos' _ (p.1, v) _ (by simp [hp])]
      rfl
    · have hfalse : (p.1 == k) = false := by simp [hp]
      rw [find?_cons_neg' _ p t hfalse] at h
      simp only [List.map_cons]
      rw [show (if p.1 == k then (p.1, v) else p) = p from by simp [hp]]
      unfold lookupKey
      rw [find?_cons_neg' _ p _ hfalse]
      exact ih h

/-- Overwriting one key in place does not affect lookups of other keys. -/
lemma lookupKey_map_ne (l : List (String × CacheEntry)) (k : String)
    (v : CacheEntry) (k' : String) (h : k' ≠ k) :
    lookupKey (l.map (fun p => if p.1 == k then (p.1, v) else p)) k' =
      lookupKey l k' := by
  induction l with
  | nil => rfl
  | cons p t ih =>
    simp only [List.map_cons]
    by_cases hpk : p.1 = k'
    · have hpnotk : (p.1 == k) = false := by
        simp only [beq_eq_false_iff_ne, ne_eq]
        exact fun hh => h (hpk ▸ hh)
      rw [show (if p.1 == k then (p.1, v) else p) = p from by rw [hpnotk]; rfl]
      unfold lookupKey
      rw [find?_cons_pos' _ p _ (by simp [hpk]), find?_cons_pos' _ p t (by simp [hpk])]
    · have hfst : (if p.1 == k then ((p.1 : String), v) else p).1 = p.1 := by
        split <;> rfl
      unfold lookupKey
      rw [find?_cons_neg' _ _ _
          (by simp only [hfst, beq_eq_false_iff_ne, ne_eq]; exact hpk),
        find?_cons_neg' _ p t (by simp [hpk])]
      exact ih

/-- Appending a fresh binding makes its key look up to its value. -/
lemma lookupKey_append_single (l : List (String × CacheEntry)) (k : String)
    (v : CacheEntry) (h : l.find? (fun p => p.1 == k) = none) :
    lookupKey (l ++ [(k, v)]) k = some v := by
  unfold lookupKey
  rw [List.find?_append, h]
  simp

/-- Appending a binding for one key does not affect lookups of other
keys. -/
lemma lookupKey_append_single_ne (l : List (String × CacheEntry)) (k : String)
    (v : CacheEntry) (k' : String) (h : k' ≠ k) :
    lookupKey (l ++ [(k, v)]) k' = lookupKey l k' := by
  unfold lookupKey
  rw [List.find?_append]
  have hnone : List.find? (fun p => p.1 == k') [(k, v)] = none := by
    simp only [List.find?_singleton, beq_iff_eq]
    rw [if_neg (fun hh => h hh.symm)]
  rw [hnone]
  rcases hf : l.find? (fun p => p.1 == k') with _ | p <;> rw [hf] <;> rfl

/-- After `dictInsert` the inserted key holds the inserted value. -/
lemma lookupKey_dictInsert_self (l : List (String × CacheEntry)) (k : String)
    (v : CacheEntry) : lookupKey (dictInsert l k v) k = some v := by
  unfold dictInsert
  split
  · rename_i h
    exact lookupKey_map_overwrite l k v h
  · rename_i h
    have hn : l.find? (fun p => p.1 == k) = none := by
      rcases hf : l.find? (fun p => p.1 == k) with _ | p
      · exact hf
      · rw [hf] at h
        simp at h
    exact lookupKey_append_single l k v hn

/-- `dictInsert` does not affect lookups of other keys. -/
lemma lookupKey_dictInsert_ne (l : List (String × CacheEntry)) (k : String)
    (v : CacheEntry) (k' : String) (h : k' ≠ k) :
    lookupKey (dictInsert l k v) k' = lookupKey l k' := by
  unfold dictInsert
  split
  · exact lookupKey_map_ne l k v k' h
  · exact lookupKey_append_single_ne l k v k' h

/-! ## Claim C4 — semantics of `ResponseCache.set` -/

/-- Claim C4 counterexample: with the store `cacheAtCapacity` at
capacity and key "b" already present, `set` on "b" nevertheless evicts
the oldest entry "a" — the code evicts whenever `len >= max_size`,
whether or not the key being written is new, so overwriting a present
key does not leave every other entry unchanged. -/
theorem set_at_capacity_evicts_despite_present_key :
    lookupKey cacheAtCapacity.cache "b" = some ⟨"rb", 1⟩ ∧
    cacheAtCapacity.cache.length = cacheAtCapacity.max_size ∧
    lookupKey cacheAtCapacity.cache "a" = some ⟨"ra", 0⟩ ∧
    lookupKey ((ResponseCache.set cacheAtCapacity 5 "b" "rb2").cache) "a" = none := by
  decide

/-- Claim C4 (amended): `set` binds the written fingerprint to the new
response with `createdAt = now`; when the store is below capacity no
eviction happens and every other entry is unchanged.  When the store is
at capacity, `set` first evicts the single oldest-created entry even if
the fingerprint being written is already present. -/
theorem set_below_capacity_overwrite_frame (c : ResponseCache) (now : Int)
    (key r : String) (hlen : c.cache.length < c.max_size) :
    lookupKey ((ResponseCache.set c now key r).cache) key = some ⟨r, now⟩ ∧
    ∀ k, k ≠ key →
      lookupKey ((ResponseCache.set c now key r).cache) k = lookupKey c.cache k := by
  have hset : ResponseCache.set c now key r =
      { c with cache := dictInsert c.cache key ⟨r, now⟩ } := by
    unfold ResponseCache.set
    rw [if_neg (by omega)]
  rw [hset]
  exact ⟨lookupKey_dictInsert_self c.cache key ⟨r, now⟩,
    fun k hk => lookupKey_dictInsert_ne c.cache key ⟨r, now⟩ k hk⟩

/-- Claim C4 witness: overwriting key "a" in a store of 2 entries with
bound 200 updates "a" and leaves "b" untouched. -/
theorem set_below_capacity_overwrite_frame_witness :
    lookupKey ((ResponseCache.set smallCache 5 "a" "rnew").cache) "a" =
      some ⟨"rnew", 5⟩ ∧
    lookupKey ((ResponseCache.set smallCache 5 "a" "rnew").cache) "b" =
      lookupKey smallCache.cache "b" :=
  ⟨(set_below_capacity_overwrite_frame smallCache 5 "a" "rnew" (by decide)).1,
    (set_below_capacity_overwrite_frame smallCache 5 "a" "rnew" (by decide)).2 "b"
      (by decide)⟩

/-! ## Substring and replacement lemmas -/

/-- `subStr` decides the sublist-as-contiguous-segment relation. -/
lemma subStr_eq_true_iff (n : List Char) :
    ∀ h : List Char, subStr n h = true ↔ n <:+: h := by
  intro h
  induction h with
  | nil =>
    show n.isPrefixOf [] = true ↔ n <:+: []
    rw [ List.isPrefixOf_iff_prefix]
    constructor
    · intro hp
      exact hp.isInfix
    · intro hi
      rcases hi with ⟨s, t, hst⟩
      have : n = [] := by
        have h1 := List.append_eq_nil.mp hst
        exact (List.append_eq_nil.mp h1.1).2
      simp [this]
  | cons c rest ih =>
    show (n.isPrefixOf (c :: rest) || subStr n rest) = true ↔ n <:+: c :: rest
    rw [Bool.or_eq_true, List.isPrefixOf_iff_prefix, ih, List.infix_cons_iff]

/-- Substring containment survives character-wise lowering. -/
lemma subStr_map_pyLower {a t : List Char} (h : subStr a t = true) :
    subStr (pyLower a) (pyLower t) = true := by
  rw [subStr_eq_true_iff] at h ⊢
  exact List.IsInfix.map pyLowerChar h

/-- A substring of a substring is a substring. -/
lemma subStr_of_infix {n m : List Char} (hnm : n <:+: m) {s : List Char}
    (h : subStr m s = true) : subStr n s = true := by
  rw [subStr_eq_true_iff] at h ⊢
  exact hnm.trans h

/-- When the pattern occurs in the subject, `str.replace` really inserts
the replacement: the result decomposes around a copy of `new`. -/
lemma pyReplaceF_contains_new (old new : List Char) (hold : old ≠ []) :
    ∀ (fuel : Nat) (s : List Char), s.length ≤ fuel → subStr old s = true →
      ∃ p q, pyReplaceF old new fuel s = p ++ new ++ q := by
  intro fuel
  induction fuel with
  | zero =>
    intro s hlen hsub
    have hs : s = [] := List.length_eq_zero.mp (Nat.le_zero.mp hlen)
    subst hs
    have : old = [] := by
      have hsub' : old.isPrefixOf [] = true := hsub
      rwa [ List.isPrefixOf_iff_prefix, List.prefix_nil] at hsub'
    exact absurd this hold
  | succ n ih =>
    intro s hlen hsub
    match s with
    | [] =>
      have : old = [] := by
        have hsub' : old.isPrefixOf [] = true := hsub
        rwa [ List.isPrefixOf_iff_prefix, List.prefix_nil] at hsub'
      exact absurd this hold
    | c :: rest =>
      by_cases hpre : old.isPrefixOf (c :: rest) = true
      · have hcond : (!old.isEmpty && old.isPrefixOf (c :: rest)) = true := by
          simp [hpre, hold]
        refine ⟨[], pyReplaceF old new n ((c :: rest).drop old.length), ?_⟩
        show pyReplaceF old new (n + 1) (c :: rest) = _
        rw [pyReplaceF, if_pos hcond]
        rfl
      · have hcond : (!old.isEmpty && old.isPrefixOf (c :: rest)) = false := by
          simp only [Bool.and_eq_false_iff]
          right
          exact Bool.not_eq_true _ ▸ hpre
        have hsub' : subStr old rest = true := by
          have h2 : (old.isPrefixOf (c :: rest) || subStr old rest) = true := hsub
          rw [Bool.or_eq_true] at h2
          rcases h2 with h1 | h1
          · exact absurd h1 hpre
          · exact h1
        have hlen' : rest.length ≤ n := by
          simp only [List.length_cons] at hlen
          omega
        obtain ⟨p, q, hpq⟩ := ih rest hlen' hsub'
        refine ⟨c :: p, q, ?_⟩
        show pyReplaceF old new (n + 1) (c :: rest) = _
        rw [pyReplaceF, if_neg (by rw [hcond]; exact Bool.false_ne_true)]
        rw [hpq]
        rfl

/-- `pyReplace` inserts the replacement whenever the pattern occurs. -/
lemma pyReplace_contains_new (old new s : List Char) (hold : old ≠ [])
    (hsub : subStr old s = true) :
    ∃ p q, pyReplace old new s = p ++ new ++ q :=
  pyReplaceF_contains_new old new hold s.length s le_rfl hsub

/-! ## Claim C7 — the Intent Classifier is first-match over the table -/

/-- `List.find?` returns the element at the first index whose predicate
holds. -/
lemma find?_eq_of_first_index {α : Type} (p : α → Bool) :
    ∀ (l : List α) (i : Nat) (hi : i < l.length),
      p (l.get ⟨i, hi⟩) = true →
      (∀ j (hj : j < i), p (l.get ⟨j, Nat.lt_trans hj hi⟩) = false) →
      l.find? p = some (l.get ⟨i, hi⟩) := by
  intro l
  induction l with
  | nil =>
    intro i hi
    exact absurd hi (Nat.not_lt_zero i)
  | cons a t ih =>
    intro i hi hp hfirst
    match i with
    | 0 =>
      exact find?_cons_pos' p a t hp
    | i' + 1 =>
      have ha : p a = false := hfirst 0 (Nat.succ_pos i')
      rw [find?_cons_neg' p a t ha]
      exact ih i' (Nat.lt_of_succ_lt_succ hi) hp
        (fun j hj => hfirst (j + 1) (Nat.succ_lt_succ hj))

/-- Claim C7: the classifier lower-cases the message, walks the pattern
table in declaration order and returns the label of the first entry one
of whose alternatives is a substring, or nothing when no entry matches;
in particular, when two entries match, the earlier one's label wins. -/
theorem detectar_intencion_spec :
    (∀ message : List Char,
        (∀ e ∈ QUESTION_PATTERNS, entryMatches e (pyLower message) = false) →
        detectar_intencion message = none) ∧
    (∀ (message : List Char) (i : Nat) (hi : i < QUESTION_PATTERNS.length),
        entryMatches (QUESTION_PATTERNS.get ⟨i, hi⟩) (pyLower message) = true →
        (∀ (j : Nat) (hj : j < i),
          entryMatches (QUESTION_PATTERNS.get ⟨j, Nat.lt_trans hj hi⟩)
            (pyLower message) = false) →
        detectar_intencion message =
          some (QUESTION_PATTERNS.get ⟨i, hi⟩).2) := by
  constructor
  · intro message h
    unfold detectar_intencion
    rw [List.find?_eq_none.mpr (fun e he => by simp [h e he])]
    rfl
  · intro message i hi hp hfirst
    unfold detectar_intencion
    rw [find?_eq_of_first_index _ QUESTION_PATTERNS i hi hp hfirst]
    rfl

/-- Claim C7 witness: "Hola" is classified as the first entry's label,
"zzz" matches nothing. -/
theorem detectar_intencion_spec_witness :
    detectar_intencion ("Hola".toList) = some "saludo" ∧
    detectar_intencion ("zzz".toList) = none :=
  ⟨(detectar_intencion_spec.2 ("Hola".toList) 0 (by decide) (by decide)
      (fun j hj => absurd hj (Nat.not_lt_zero j))).trans (by decide),
    detectar_intencion_spec.1 ("zzz".toList) (by decide)⟩

/-! ## Claim C8 — suffix priority of the Canned Response Resolver -/

/-- Claim C8: for a recognized intent label, the resolver appends at
most one suffix to the base template, checking the step-by-step cue on
the lower-cased original message first: with that cue present (even
together with the urgency cue) the result carries the step-by-step
suffix and never the urgency suffix; with only the urgency cue it
carries the urgency suffix; with neither cue it is the base template
unmodified. -/
theorem procesar_respuesta_suffix_priority (intencion : String)
    (base : List Char) (m : List Char)
    (hrec : INTELLIGENT_RESPONSES.find? (fun p => p.1 == intencion) =
      some (intencion, base)) :
    (subStr ("paso a paso".toList) (pyLower m) = true →
      procesar_respuesta_rapida intencion m = some (base ++ stepSuffix) ∧
      procesar_respuesta_rapida intencion m ≠ some (base ++ urgencySuffix)) ∧
    (subStr ("paso a paso".toList) (pyLower m) = false →
      subStr ("urgente".toList) (pyLower m) = true →
      procesar_respuesta_rapida intencion m = some (base ++ urgencySuffix)) ∧
    (subStr ("paso a paso".toList) (pyLower m) = false →
      subStr ("urgente".toList) (pyLower m) = false →
      procesar_respuesta_rapida intencion m = some base) := by
  refine ⟨fun hstep => ⟨?_, ?_⟩, fun hstep hurg => ?_, fun hstep hurg => ?_⟩
  · simp only [procesar_respuesta_rapida, hrec, hstep, if_true]
  · have heq : procesar_respuesta_rapida intencion m = some (base ++ stepSuffix) := by
      simp only [procesar_respuesta_rapida, hrec, hstep, if_true]
    rw [heq]
    intro hcontra
    have hsuffixes : stepSuffix = urgencySuffix :=
      List.append_cancel_left (Option.some.inj hcontra)
    exact absurd hsuffixes (by decide)
  · simp only [procesar_respuesta_rapida, hrec, hstep, hurg, Bool.false_eq_true,
      if_false, if_true]
  · simp only [procesar_respuesta_rapida, hrec, hstep, hurg, Bool.false_eq_true,
      if_false]

/-- Claim C8 witness: for the "saludo" template, a message with both
cues gets the step-by-step suffix, a message with neither is returned
unmodified. -/
theorem procesar_respuesta_suffix_priority_witness :
    procesar_respuesta_rapida "saludo" ("explica paso a paso urgente".toList) =
      some (saludoResp ++ stepSuffix) ∧
    procesar_respuesta_rapida "saludo" ("hola".toList) = some saludoResp :=
  ⟨((procesar_respuesta_suffix_priority "saludo" saludoResp
      ("explica paso a paso urgente".toList) (by decide)).1 (by decide)).1,
    (procesar_respuesta_suffix_priority "saludo" saludoResp ("hola".toList)
      (by decide)).2.2 (by decide) (by decide)⟩

/-! ## Claim C9 — the Response Enhancer's navigation-cue rewrite -/

/-- Claim C9 counterexample: the condition checks the lower-cased text
for "ve a", but the replacement only rewrites the exact-case "Ve a ".
The response "ve a Planes" contains the cue case-insensitively and no
menu reference, yet the enhancer's output still never mentions the
menu. -/
theorem mejorar_lowercase_cue_not_rewritten :
    subStr ("ve a".toList) (pyLower ("ve a Planes".toList)) = true ∧
    subStr ("menú".toList) (pyLower ("ve a Planes".toList)) = false ∧
    subStr ("menú".toList)
      (pyLower (mejorar_respuesta_contexto ("ve a Planes".toList) [])) = false := by
  decide

/-- Claim C9 (amended): for a response text that contains the exact-case
cue "Ve a " and no menu reference, the enhancer rewrites the cue so that
the output mentions the menu; texts containing the cue only in other
capitalizations pass through the replacement unchanged. -/
theorem mejorar_exact_cue_mentions_menu (t m : List Char)
    (hcue : subStr ("Ve a ".toList) t = true)
    (hmenu : subStr ("menú".toList) (pyLower t) = false) :
    subStr ("menú".toList) (mejorar_respuesta_contexto t m) = true := by
  have hlow : subStr ("ve a ".toList) (pyLower t) = true := by
    have h1 := subStr_map_pyLower hcue
    rw [show pyLower ("Ve a ".toList) = "ve a ".toList from by decide] at h1
    exact h1
  have hcond1 : subStr ("ve a".toList) (pyLower t) = true :=
    subStr_of_infix ((subStr_eq_true_iff _ _).mp (by decide)) hlow
  obtain ⟨p, q, hpq⟩ :=
    pyReplace_contains_new ("Ve a ".toList) ("Ve al menú ".toList) t
      (by decide) hcue
  have hmen_new : ("menú".toList) <:+: ("Ve al menú ".toList) :=
    (subStr_eq_true_iff _ _).mp (by decide)
  have hr1 : ("menú".toList) <:+:
      pyReplace ("Ve a ".toList) ("Ve al menú ".toList) t := by
    rw [hpq]
    exact hmen_new.trans (List.infix_append p _ q)
  have hfinal : ∀ r1 : List Char, ("menú".toList) <:+: r1 →
      subStr ("menú".toList)
        (if !subStr ("paso a paso".toList) (pyLower r1) &&
            !subStr ("guiar".toList) (pyLower r1)
          then r1 ++ guideSuffix else r1) = true := by
    intro r1 hr
    split
    · rw [subStr_eq_true_iff]
      exact hr.trans (List.prefix_append r1 guideSuffix).isInfix
    · rw [subStr_eq_true_iff]
      exact hr
  show subStr ("menú".toList) (mejorar_respuesta_contexto t m) = true
  unfold mejorar_respuesta_contexto
  simp only [hcond1, hmenu, Bool.not_false, Bool.and_self, if_true]
  exact hfinal _ hr1

/-- Claim C9 witness: the exact-case response "Ve a Planes" is rewritten
to mention the menu. -/
theorem mejorar_exact_cue_mentions_menu_witness :
    subStr ("menú".toList) (mejorar_respuesta_contexto ("Ve a Planes".toList) []) =
      true :=
  mejorar_exact_cue_mentions_menu ("Ve a Planes".toList) [] (by decide) (by decide)

/-! ## Claim C10 — the Response Enhancer ignores the original message -/

/-- Claim C10: the enhancer's output depends only on the response text:
the `mensaje_original` parameter is accepted but never read, so any two
messages give the same output. -/
theorem mejorar_ignores_original_message (t m1 m2 : List Char) :
    mejorar_respuesta_contexto t m1 = mejorar_respuesta_contexto t m2 := rfl
